import Mathlib

/-!
Shallow embedding of the RAG ingestion pipeline
(`backend_rag_pipeline/common/text_processor.py`,
`backend_rag_pipeline/common/db_handler.py`,
`backend_rag_pipeline/Local_Files/file_watcher.py`,
`backend_rag_pipeline/Google_Drive/drive_watcher.py`).

Python strings are modelled as `List Char`, raw file bytes as `List Nat`.
External library calls (UTF-8 decoding, pypdf extraction, the embedding
provider, CSV parsing) are taken as function parameters: the repository
treats them as opaque. The PostgreSQL code path of `db_handler.py`
(`DATABASE_PROVIDER = "postgres"`) is embedded statement by statement;
each SQL statement is auto-committed (the source opens no transaction
block), so the model threads the visible database state through every
statement and records the committed states in a trace. Exceptions raised
by the database driver are injected through an explicit failure schedule;
a failing statement leaves the database unchanged and the surrounding
`try/except` of the corresponding Python function decides whether
execution continues. `json.dumps`/`base64.b64encode` are injective
serializations whose exact output no claim depends on; they are modelled
by the serialized value itself.
-/

abbrev Str := List Char

abbrev Bytes := List Nat

/-- The character `'\u0000'` removed by `chunk_text`. -/
def nullChar : Char := Char.ofNat 0

/-- The character `'\r'` removed by `chunk_text`. -/
def crChar : Char := Char.ofNat 13

/-- The two `text.replace` calls at the top of `chunk_text`
(`text.replace('\u0000', '')` then `text.replace('\r', '')`). -/
def stripForStorage (text : Str) : Str :=
  (text.filter (fun c => c ≠ nullChar)).filter (fun c => c ≠ crChar)

/-- Python `range(i, n, step)` for a positive step, written with structural
fuel so that it evaluates by kernel reduction; `fuel = n` always suffices
because the index grows by at least 1 per emitted element. -/
def rangeStepAux : Nat → Nat → Nat → Nat → List Nat
  | 0, _, _, _ => []
  | fuel + 1, i, n, step => if i < n then i :: rangeStepAux fuel (i + step) n step else []

/-- The loop header `for i in range(0, len(text), chunk_size - overlap)`. -/
def chunkStarts (n step : Nat) : List Nat := rangeStepAux n 0 n step

/-- `text_processor.chunk_text`. Returns `none` when the Python call raises
(`range` with a zero step raises `ValueError`); `some chunks` otherwise.
`text[i:i + chunk_size]` is `(t.drop i).take chunk_size.toNat` (a negative
slice length yields the empty string, as `Int.toNat` sends negatives to 0),
and `if chunk:` keeps only non-empty windows. A negative step makes the
Python `range` empty, so the loop body never runs. -/
def chunk_text (text : Str) (chunk_size : Int := 400) (overlap : Int := 0) :
    Option (List Str) :=
  if text = [] then some []
  else
    let t := stripForStorage text
    let step := chunk_size - overlap
    if step = 0 then none
    else if step < 0 then some []
    else
      some (((chunkStarts t.length step.toNat).map
        (fun i => (t.drop i).take chunk_size.toNat)).filter (fun c => c ≠ []))

/-- The nested `text_processing` dictionary of a watcher configuration;
`none` fields model absent JSON keys. -/
structure TextProcessingConfig where
  default_chunk_size : Option Int
  default_chunk_overlap : Option Int
  deriving DecidableEq, Repr

/-- A watcher configuration dictionary (`config.json`); only the keys the
embedded code reads are modelled, each optional exactly as Python's
`dict.get` treats it. -/
structure Config where
  supported_mime_types : Option (List Str)
  tabular_mime_types : Option (List Str)
  text_processing : Option TextProcessingConfig
  deriving DecidableEq, Repr

/-- `config.get('text_processing', {}).get('default_chunk_size', 400)`. -/
def cfgChunkSize (config : Config) : Int :=
  match config.text_processing with
  | some tp => tp.default_chunk_size.getD 400
  | none => 400

/-- `config.get('text_processing', {}).get('default_chunk_overlap', 0)`. -/
def cfgChunkOverlap (config : Config) : Int :=
  match config.text_processing with
  | some tp => tp.default_chunk_overlap.getD 0
  | none => 0

/-- The hard-coded fallback list in `is_tabular_file`. -/
def defaultTabularTypes : List Str :=
  ["csv".toList, "xlsx".toList, "text/csv".toList,
   "application/vnd.openxmlformats-officedocument.spreadsheetml.sheet".toList]

/-- `text_processor.is_tabular_file`. -/
def is_tabular_file (mime_type : Str) (config : Config) : Bool :=
  let tabular := config.tabular_mime_types.getD defaultTabularTypes
  tabular.any (fun t => t.isPrefixOf mime_type)

/-- Python `sub in s` substring containment, used by
`'application/pdf' in mime_type`. -/
def strContains (s sub : Str) : Bool :=
  (List.range (s.length + 1)).any (fun i => sub.isPrefixOf (s.drop i))

/-- `text_processor.extract_text_from_file`. The UTF-8 lossy decoder
(`bytes.decode('utf-8', errors='replace')`) and the pypdf-based
`extract_text_from_pdf` are external library calls, passed as `decode`
and `pdfExtract`. The third and fourth Python branches both decode, so
the supported-type test does not change the result. -/
def extract_text_from_file (decode pdfExtract : Bytes → Str)
    (file_content : Bytes) (mime_type file_name : Str) (config : Config) : Str :=
  if strContains mime_type "application/pdf".toList then pdfExtract file_content
  else if "image".toList.isPrefixOf mime_type then file_name
  else if (config.supported_mime_types.getD []).any (fun t => t.isPrefixOf mime_type) then
    decode file_content
  else decode file_content

/-! ## Storage model: the `DATABASE_PROVIDER = "postgres"` path of `db_handler.py` -/

/-- The JSONB `metadata` column built for every chunk in
`insert_document_chunks_async`; `file_contents` is the base64 of the raw
bytes (modelled by the bytes, the encoding being injective) and is present
only when `file_contents` was passed (image files). -/
structure ChunkMetadata where
  file_id : Str
  file_url : Str
  file_title : Str
  mime_type : Option Str
  chunk_index : Nat
  file_contents : Option Bytes
  deriving DecidableEq, Repr

/-- One row of the `documents` table. -/
structure DocumentRecord where
  content : Str
  metadata : ChunkMetadata
  embedding : List Int
  deriving DecidableEq, Repr

/-- One row of the `document_rows` table; `row_data` is the JSON of the
parsed CSV row dictionary, modelled by the dictionary itself. -/
structure RowRecord where
  dataset_id : Str
  row_data : List (Str × Str)
  deriving DecidableEq, Repr

/-- One row of the `document_metadata` table; `schema` is the JSON of the
column-name list, modelled by the list itself (`NULL` as `none`). -/
structure MetadataRecord where
  id : Str
  title : Str
  url : Str
  schema : Option (List Str)
  deriving DecidableEq, Repr

/-- The three tables the pipeline writes. -/
structure Database where
  documents : List DocumentRecord
  document_rows : List RowRecord
  document_metadata : List MetadataRecord
  deriving DecidableEq, Repr

def emptyDatabase : Database := ⟨[], [], []⟩

/-- `DELETE FROM documents WHERE metadata->>'file_id' = $1`. -/
def deleteDocumentsStmt (file_id : Str) (db : Database) : Database :=
  { db with documents := db.documents.filter (fun d => d.metadata.file_id ≠ file_id) }

/-- `DELETE FROM document_rows WHERE dataset_id = $1`. -/
def deleteRowsStmt (file_id : Str) (db : Database) : Database :=
  { db with document_rows := db.document_rows.filter (fun r => r.dataset_id ≠ file_id) }

/-- `DELETE FROM document_metadata WHERE id = $1`. -/
def deleteMetadataStmt (file_id : Str) (db : Database) : Database :=
  { db with document_metadata := db.document_metadata.filter (fun m => m.id ≠ file_id) }

/-- `INSERT INTO document_metadata ... ON CONFLICT (id) DO UPDATE`: a single
upsert statement, updating in place when a record with the id exists and
inserting otherwise. -/
def upsertMetadataStmt (file_id title url : Str) (schema : Option (List Str))
    (db : Database) : Database :=
  if db.document_metadata.any (fun m => m.id = file_id) then
    let updated := db.document_metadata.map
      (fun m => if m.id = file_id then ⟨file_id, title, url, schema⟩ else m)
    { db with document_metadata := updated }
  else
    { db with document_metadata := db.document_metadata ++ [⟨file_id, title, url, schema⟩] }

/-- `schema_json = json.dumps(schema) if schema else None`: an empty Python
list is falsy, so an empty schema is stored as `NULL`. -/
def schemaJsonOf (schema : Option (List Str)) : Option (List Str) :=
  match schema with
  | some s => if s = [] then none else some s
  | none => none

/-- The record list built by the `for i, (chunk, embedding) in
enumerate(zip(chunks, embeddings))` loop of `insert_document_chunks_async`. -/
def chunkRecords (chunks : List Str) (embeddings : List (List Int))
    (file_id file_url file_title : Str) (mime_type : Option Str)
    (file_contents : Option Bytes) : List DocumentRecord :=
  (chunks.zip embeddings).enum.map
    (fun p => ⟨p.2.1, ⟨file_id, file_url, file_title, mime_type, p.1, file_contents⟩, p.2.2⟩)

/-- The `executemany` insert of `insert_document_chunks_async` (asyncpg runs
an `executemany` atomically, so the whole batch is one committed step). -/
def insertChunksStmt (chunks : List Str) (embeddings : List (List Int))
    (file_id file_url file_title : Str) (mime_type : Option Str)
    (file_contents : Option Bytes) (db : Database) : Database :=
  { db with documents := db.documents ++
      chunkRecords chunks embeddings file_id file_url file_title mime_type file_contents }

/-- The `executemany` insert of `insert_document_rows_async`. -/
def insertRowsStmt (file_id : Str) (rows : List (List (Str × Str)))
    (db : Database) : Database :=
  { db with document_rows := db.document_rows ++ rows.map (fun r => ⟨file_id, r⟩) }

/-- The guard `if mime_type: is_tabular = is_tabular_file(mime_type, config)`
(a `None` mime type is falsy, so the file is not treated as tabular). -/
def mimeIsTabular (mime_type : Option Str) (config : Config) : Bool :=
  match mime_type with
  | some m => is_tabular_file m config
  | none => false

/-- The guard `if mime_type and mime_type.startswith("image")`. -/
def isImageMime (mime_type : Option Str) : Bool :=
  match mime_type with
  | some m => "image".toList.isPrefixOf m
  | none => false

/-- The raw bytes stored inside chunk metadata: present only on the image
branch of `process_file_for_rag_async`. -/
def imageContents (mime_type : Option Str) (file_content : Bytes) : Option Bytes :=
  if isImageMime mime_type then some file_content else none

/-- Which database statements raise during one `process_file_for_rag_async`
call. `deleteFailAt`: 0 = no failure, k = the k-th DELETE of
`delete_document_by_file_id_async` raises (statements before it are already
committed, the rest are skipped, the exception is caught by that function's
own `except`). `metadataFail`: the metadata upsert statement raises (caught
inside `insert_or_update_document_metadata_async`). `rowsFailAt`: 0 = none,
1 = the row DELETE raises, 2 = the row insert raises (caught inside
`insert_document_rows_async`). `embeddingFail`: `create_embeddings` raises
(an uncaught `EmbeddingProviderError`, landing in the outer `except` of
`process_file_for_rag_async`). `chunksFail`: the chunk insert raises
(caught inside `insert_document_chunks_async`). -/
structure Schedule where
  deleteFailAt : Nat
  metadataFail : Bool
  rowsFailAt : Nat
  embeddingFail : Bool
  chunksFail : Bool
  deriving DecidableEq, Repr

def happySchedule : Schedule := ⟨0, false, 0, false, false⟩

/-- Does the schedule inject at least one raising statement? -/
def hasFailure (sch : Schedule) : Bool :=
  sch.deleteFailAt ≠ 0 ∨ sch.metadataFail ∨ sch.rowsFailAt ≠ 0 ∨
    sch.embeddingFail ∨ sch.chunksFail

/-- The committed states produced by `delete_document_by_file_id_async` on
the postgres path: three separate auto-committed DELETE statements; an
exception skips the remaining statements and is caught by the function's
own `try/except`. -/
def deleteTrace (failAt : Nat) (file_id : Str) (db : Database) : List Database :=
  if failAt = 1 then []
  else
    let a := deleteDocumentsStmt file_id db
    if failAt = 2 then [a]
    else
      let b := deleteRowsStmt file_id a
      if failAt = 3 then [a, b]
      else [a, b, deleteMetadataStmt file_id b]

/-- The committed states produced by `insert_document_rows_async` (its own
DELETE followed by the `executemany` insert, exceptions caught inside). -/
def rowsTrace (failAt : Nat) (file_id : Str) (rows : List (List (Str × Str)))
    (db : Database) : List Database :=
  if failAt = 1 then []
  else
    let a := deleteRowsStmt file_id db
    if failAt = 2 then [a] else [a, insertRowsStmt file_id rows a]

/-- The database state visible after a (possibly empty) list of committed
statements. -/
def lastState (db : Database) (tr : List Database) : Database := tr.getLastD db

/-- `db_handler.process_file_for_rag_async` on the postgres path.
Returns the full list of visible database states (the initial state
followed by one state per committed statement) together with the Python
return value: `some true` for the `return True` paths, `some false` when
the outer `except` caught an exception, `none` for the early
`return` of the no-chunks branch. `create_embeddings` (the external
embedding provider), `extract_schema_from_csv` and `extract_rows_from_csv`
(the `csv`-library based extractors, which catch their own errors and are
total) are parameters. -/
def process_file_for_rag (sch : Schedule)
    (create_embeddings : List Str → List (List Int))
    (extract_schema_from_csv : Bytes → List Str)
    (extract_rows_from_csv : Bytes → List (List (Str × Str)))
    (file_content : Bytes) (text : Str) (file_id file_url file_title : Str)
    (mime_type : Option Str) (config : Config) (db : Database) :
    List Database × Option Bool :=
  let tr1 := deleteTrace sch.deleteFailAt file_id db
  let db1 := lastState db tr1
  let is_tab := mimeIsTabular mime_type config
  let schema := if is_tab then some (extract_schema_from_csv file_content) else none
  let db2 := if sch.metadataFail then db1
    else upsertMetadataStmt file_id file_title file_url (schemaJsonOf schema) db1
  let tr2 := tr1 ++ (if sch.metadataFail then [] else [db2])
  let tr3 := tr2 ++ (if is_tab then
      (let rows := extract_rows_from_csv file_content
       if rows ≠ [] then rowsTrace sch.rowsFailAt file_id rows db2 else [])
    else [])
  let db3 := lastState db tr3
  match chunk_text text (cfgChunkSize config) (cfgChunkOverlap config) with
  | none => (db :: tr3, some false)
  | some [] => (db :: tr3, none)
  | some (c :: cs) =>
    if sch.embeddingFail then (db :: tr3, some false)
    else
      let chunks := c :: cs
      let embeddings := create_embeddings chunks
      if sch.chunksFail ∨ chunks.length ≠ embeddings.length then (db :: tr3, some true)
      else
        (db :: (tr3 ++ [insertChunksStmt chunks embeddings file_id file_url file_title
          mime_type (imageContents mime_type file_content) db3]), some true)

/-- The final database state and return value of one
`process_file_for_rag_async` call. -/
def processFinal (sch : Schedule)
    (create_embeddings : List Str → List (List Int))
    (extract_schema_from_csv : Bytes → List Str)
    (extract_rows_from_csv : Bytes → List (List (Str × Str)))
    (file_content : Bytes) (text : Str) (file_id file_url file_title : Str)
    (mime_type : Option Str) (config : Config) (db : Database) :
    Database × Option Bool :=
  let r := process_file_for_rag sch create_embeddings extract_schema_from_csv
    extract_rows_from_csv file_content text file_id file_url file_title mime_type config db
  (r.1.getLastD db, r.2)

/-- The chunk, row and metadata records stored for one file id. -/
def recordsFor (file_id : Str) (db : Database) :
    List DocumentRecord × List RowRecord × List MetadataRecord :=
  (db.documents.filter (fun d => d.metadata.file_id = file_id),
   db.document_rows.filter (fun r => r.dataset_id = file_id),
   db.document_metadata.filter (fun m => m.id = file_id))

/-- A configuration whose `text_processing` block sets
`default_chunk_size = 5` and `default_chunk_overlap = 5`; nothing in the
repository rejects or clamps it. -/
def cfgOverlapEqSize : Config := ⟨none, none, some ⟨some 5, some 5⟩⟩

/-! ## Watcher models: the `known_files` dictionary and `process_file` -/

/-- Python dictionary lookup on the insertion-ordered `known_files` dict,
modelled as an association list. -/
def kfLookup (k : Str) : List (Str × Str) → Option Str
  | [] => none
  | p :: rest => if p.1 = k then some p.2 else kfLookup k rest

/-- Python `known_files[k] = v`: update in place if the key exists,
append otherwise. -/
def kfInsert (k v : Str) (m : List (Str × Str)) : List (Str × Str) :=
  if m.any (fun p => p.1 = k) then
    m.map (fun p => if p.1 = k then (k, v) else p)
  else m ++ [(k, v)]

/-- Python `known_files.pop(k, None)`. -/
def kfRemove (k : Str) (m : List (Str × Str)) : List (Str × Str) :=
  m.filter (fun p => p.1 ≠ k)

/-- `Local_Files/file_watcher.py, LocalFileWatcher.process_file`: read the
file bytes (`content`, external I/O), extract text, and when the text is
non-empty run `process_file_for_rag` and then set
`known_files[file_path] = file['modifiedTime']` unconditionally — the
return value of `process_file_for_rag` is discarded. Returns the new
database and `known_files` states. -/
def LocalFileWatcher.process_file (sch : Schedule)
    (create_embeddings : List Str → List (List Int))
    (extract_schema_from_csv : Bytes → List Str)
    (extract_rows_from_csv : Bytes → List (List (Str × Str)))
    (decode pdfExtract : Bytes → Str)
    (db : Database) (known_files : List (Str × Str))
    (content : Bytes) (file_path file_name mime_type webViewLink modifiedTime : Str)
    (config : Config) : Database × List (Str × Str) :=
  let text := extract_text_from_file decode pdfExtract content mime_type file_name config
  if text ≠ [] then
    let r := process_file_for_rag sch create_embeddings extract_schema_from_csv
      extract_rows_from_csv content text file_path webViewLink file_name
      (some mime_type) config db
    (r.1.getLastD db, kfInsert file_path modifiedTime known_files)
  else (db, known_files)

/-- The MIME allow-list test of `GoogleDriveWatcher.process_file`:
`any(mime_type.startswith(t.split('/')[0]) or mime_type == t for t in supported)`. -/
def driveMimeAllowed (mime_type : Str) (config : Config) : Bool :=
  (config.supported_mime_types.getD []).any
    (fun t => (t.takeWhile (fun c => c ≠ '/')).isPrefixOf mime_type ∨ mime_type = t)

/-- `Google_Drive/drive_watcher.py, GoogleDriveWatcher.process_file`.
A trashed file is removed via `delete_document_by_file_id` and popped from
`known_files`. Otherwise, after the MIME allow-list test, the download and
extraction run inside a `try`; `downloadFail` models an exception raised
there (caught by the method's `except`, leaving both states unchanged).
When extraction yields non-empty text, `process_file_for_rag` runs and
`known_files[file_id] = file.get('modifiedTime')` is set unconditionally —
the return value of `process_file_for_rag` is discarded. -/
def GoogleDriveWatcher.process_file (sch : Schedule)
    (create_embeddings : List Str → List (List Int))
    (extract_schema_from_csv : Bytes → List Str)
    (extract_rows_from_csv : Bytes → List (List (Str × Str)))
    (decode pdfExtract : Bytes → Str)
    (trashedDeleteFailAt : Nat) (downloadFail : Bool)
    (db : Database) (known_files : List (Str × Str))
    (content : Bytes) (file_id file_name mime_type webViewLink modifiedTime : Str)
    (trashed : Bool) (config : Config) : Database × List (Str × Str) :=
  if trashed then
    (lastState db (deleteTrace trashedDeleteFailAt file_id db), kfRemove file_id known_files)
  else if ¬ driveMimeAllowed mime_type config then (db, known_files)
  else if downloadFail then (db, known_files)
  else
    let text := extract_text_from_file decode pdfExtract content mime_type file_name config
    if text ≠ [] then
      let r := process_file_for_rag sch create_embeddings extract_schema_from_csv
        extract_rows_from_csv content text file_id webViewLink file_name
        (some mime_type) config db
      (r.1.getLastD db, kfInsert file_id modifiedTime known_files)
    else (db, known_files)

/-! ## Concrete instances used as witnesses -/

/-- A toy embedding provider honouring the same-length contract. -/
def exCe : List Str → List (List Int) := fun l => l.map (fun _ => [1])

def exEs : Bytes → List Str := fun _ => []

def exEr : Bytes → List (List (Str × Str)) := fun _ => []

/-- An empty configuration: every knob at its Python default. -/
def exCfg : Config := ⟨none, none, none⟩

/-- A previously stored chunk record for file id `"f1"`. -/
def exOldDoc : DocumentRecord :=
  ⟨"old".toList, ⟨"f1".toList, "u0".toList, "t0".toList, none, 0, none⟩, [9]⟩

/-- A database already holding one chunk and one metadata record for `"f1"`. -/
def exDb : Database :=
  ⟨[exOldDoc], [], [⟨"f1".toList, "t0".toList, "u0".toList, none⟩]⟩

/-- A configuration whose MIME allow-list admits `text/plain` files. -/
def exCfgPlain : Config := ⟨some ["text/plain".toList], none, none⟩

/-- A decoder standing in for `bytes.decode` in watcher witnesses. -/
def exDecode : Bytes → Str := fun _ => "hi".toList

/-- A pdf extractor stand-in for watcher witnesses. -/
def exPdf : Bytes → Str := fun _ => []

/-! ## Helper lemmas on the chunker -/

theorem mem_rangeStepAux_lt (s n : Nat) :
    ∀ (fuel i j : Nat), j ∈ rangeStepAux fuel i n s → j < n := by
  intro fuel
  induction fuel with
  | zero => intro i j hj; simp [rangeStepAux] at hj
  | succ fuel ih =>
    intro i j hj
    by_cases hi : i < n
    · simp only [rangeStepAux, if_pos hi, List.mem_cons] at hj
      rcases hj with rfl | hj
      · exact hi
      · exact ih _ _ hj
    · simp [rangeStepAux, if_neg hi] at hj

theorem rangeStepAux_flatten (s : Nat) :
    ∀ (fuel i : Nat) (t : Str), t.length - i ≤ fuel * s →
      ((rangeStepAux fuel i t.length s).map (fun j => (t.drop j).take s)).flatten = t.drop i := by
  intro fuel
  induction fuel with
  | zero =>
    intro i t hf
    simp only [Nat.zero_mul, Nat.le_zero] at hf
    simp [rangeStepAux, List.drop_eq_nil_of_le (by omega : t.length ≤ i)]
  | succ fuel ih =>
    intro i t hf
    by_cases hi : i < t.length
    · have hf' : t.length - (i + s) ≤ fuel * s := by
        calc t.length - (i + s) = t.length - i - s := by rw [Nat.sub_sub]
          _ ≤ (fuel + 1) * s - s := Nat.sub_le_sub_right hf s
          _ = fuel * s := by rw [Nat.succ_mul, Nat.add_sub_cancel]
      have hrec := ih (i + s) t hf'
      simp only [rangeStepAux, if_pos hi, List.map_cons, List.flatten_cons, hrec]
      have hdd : t.drop (i + s) = (t.drop i).drop s := by
        rw [List.drop_drop, Nat.add_comm]
      rw [hdd, List.take_append_drop]
    · simp [rangeStepAux, if_neg hi, List.drop_eq_nil_of_le (by omega : t.length ≤ i)]

theorem chunk_window_ne_nil (t : Str) (j k : Nat) (hj : j < t.length) (hk : 0 < k) :
    (t.drop j).take k ≠ [] := by
  have : 0 < ((t.drop j).take k).length := by
    rw [List.length_take, List.length_drop]
    omega
  exact List.length_pos.mp this

theorem chunk_windows_filter (t : Str) (s k : Nat) (hk : 0 < k) :
    ((chunkStarts t.length s).map (fun i => (t.drop i).take k)).filter (fun c => c ≠ []) =
      (chunkStarts t.length s).map (fun i => (t.drop i).take k) := by
  rw [List.filter_eq_self]
  intro a ha
  obtain ⟨j, hj, rfl⟩ := List.mem_map.mp ha
  have hjn : j < t.length := mem_rangeStepAux_lt s t.length t.length 0 j hj
  simpa using chunk_window_ne_nil t j k hjn hk

/-! ## Claim C5 -/

/-- C5, counterexample: the claim "for every 12-character input string,
`chunk_text` with size=5 and overlap=2 produces exactly 3 windows with
start offsets 0, 3, 6" is false: on `"abcdefghijkl"` the loop steps by
`5 - 2 = 3` through starts 0, 3, 6 and 9, emitting 4 non-empty windows. -/
theorem chunk_text_5_2_three_windows_cex :
    ¬ (∀ text : Str, text.length = 12 →
        (chunk_text text 5 2).map List.length = some 3) := by
  intro h
  exact absurd (h "abcdefghijkl".toList (by decide)) (by decide)

/-- C5, amended: for every 12-character string free of null bytes and
carriage returns, `chunk_text` with size=5 and overlap=2 produces exactly
4 windows, the slices of length 5 starting at offsets 0, 3, 6 and 9. -/
theorem chunk_text_5_2_twelve_chars (text : Str)
    (hlen : text.length = 12) (hclean : stripForStorage text = text) :
    chunk_text text 5 2 =
      some [text.take 5, (text.drop 3).take 5, (text.drop 6).take 5, (text.drop 9).take 5] := by
  have hne : text ≠ [] := by
    intro h; rw [h] at hlen; simp at hlen
  unfold chunk_text
  rw [if_neg hne]
  simp only [hclean, hlen]
  norm_num
  have hstarts : chunkStarts 12 (Int.toNat 3) = [0, 3, 6, 9] := by decide
  rw [hstarts]
  simp [List.filter, hlen, hne]

/-- C5 amended, witness at `"abcdefghijkl"`. -/
theorem chunk_text_5_2_twelve_chars_witness :
    "abcdefghijkl".toList.length = 12 ∧
    chunk_text "abcdefghijkl".toList 5 2 =
      some ["abcdefghijkl".toList.take 5, ("abcdefghijkl".toList.drop 3).take 5,
        ("abcdefghijkl".toList.drop 6).take 5, ("abcdefghijkl".toList.drop 9).take 5] :=
  ⟨by decide, chunk_text_5_2_twelve_chars _ (by decide) (by decide)⟩

/-! ## Claim C6 -/

/-- C6, counterexample: the claim "for every text and every size > 0,
concatenating the chunks of `chunk_text text size 0` reproduces a prefix
of the original text" is false: `chunk_text` first removes carriage
returns, so on the text `"\ra"` with size 1 the single chunk is `"a"`,
and `"a"` is not a prefix of `"\ra"`. -/
theorem chunk_text_concat_not_source_cex :
    ¬ (∀ (text : Str) (size : Int), 0 < size →
        ∀ chunks, chunk_text text size 0 = some chunks → chunks.flatten <+: text) := by
  intro h
  have := h [crChar, 'a'] 1 (by decide) [['a']] (by decide)
  exact absurd this (by decide)

/-- Characterization of `chunk_text` when the loop step is positive:
the result is the list of non-empty windows at the `range` starts. -/
theorem chunk_text_pos_step (text : Str) (chunk_size overlap : Int)
    (hne : text ≠ []) (hpos : 0 < chunk_size - overlap) :
    chunk_text text chunk_size overlap =
      some (((chunkStarts (stripForStorage text).length (chunk_size - overlap).toNat).map
        (fun i => ((stripForStorage text).drop i).take chunk_size.toNat)).filter
          (fun c => c ≠ [])) := by
  simp only [chunk_text, if_neg hne]
  rw [if_neg (by omega), if_neg (by omega)]

/-- C6, amended: for every text and every size > 0, concatenating the
chunks of `chunk_text text size 0` reproduces exactly the text after null
bytes and carriage returns are removed (hence a prefix of the original
text whenever the original contains neither character). -/
theorem chunk_text_concat_stripped (text : Str) (size : Int) (hsize : 0 < size) :
    (chunk_text text size 0).map List.flatten = some (stripForStorage text) := by
  by_cases hne : text = []
  · subst hne
    simp [chunk_text, stripForStorage]
  · have hs : 0 < size.toNat := by omega
    rw [chunk_text_pos_step text size 0 hne (by omega)]
    have hsub : size - 0 = size := by omega
    rw [hsub, chunk_windows_filter _ _ _ hs]
    have hflat := rangeStepAux_flatten size.toNat
      (stripForStorage text).length 0 (stripForStorage text)
      (by
        rw [Nat.sub_zero]
        calc (stripForStorage text).length = (stripForStorage text).length * 1 :=
          (Nat.mul_one _).symm
          _ ≤ (stripForStorage text).length * size.toNat := Nat.mul_le_mul_left _ hs)
    rw [List.drop_zero] at hflat
    rw [Option.map_some']
    simp only [chunkStarts]
    exact congrArg some hflat

/-- C6 amended, witness: on `"ab\rcd"` with size 3 the chunks concatenate
to `"abcd"`, the stripped text. -/
theorem chunk_text_concat_stripped_witness :
    (chunk_text ['a', 'b', crChar, 'c', 'd'] 3 0).map List.flatten =
      some (stripForStorage ['a', 'b', crChar, 'c', 'd']) :=
  chunk_text_concat_stripped _ 3 (by decide)

/-! ## Claim C7 -/

/-- C7, counterexample: the claim "the plain text produced by
`extract_text_from_file` contains no null bytes and no carriage returns"
is false: `extract_text_from_file` strips nothing. For an image MIME type
it returns the display name verbatim, so a display name containing a
carriage return appears unchanged in the output (and on the text branches
the decoded bytes are likewise returned without stripping). -/
theorem extract_text_no_cr_cex :
    ¬ (∀ (decode pdfExtract : Bytes → Str) (file_content : Bytes)
        (mime_type file_name : Str) (config : Config),
        ∀ c ∈ extract_text_from_file decode pdfExtract file_content mime_type file_name config,
          c ≠ nullChar ∧ c ≠ crChar) := by
  intro h
  have hmem : crChar ∈ extract_text_from_file (fun _ => []) (fun _ => []) []
      "image/png".toList ['a', crChar] ⟨none, none, none⟩ := by decide
  exact (h (fun _ => []) (fun _ => []) [] "image/png".toList ['a', crChar]
    ⟨none, none, none⟩ crChar hmem).2 rfl

/-- C7, amended: the stripping happens one stage later, in the chunker:
every character of every chunk returned by `chunk_text` is neither a null
byte nor a carriage return, because `chunk_text` removes both before
windowing. -/
theorem chunk_text_chunks_clean (text : Str) (chunk_size overlap : Int)
    (chunks : List Str) (hres : chunk_text text chunk_size overlap = some chunks) :
    ∀ c ∈ chunks, ∀ ch ∈ c, ch ≠ nullChar ∧ ch ≠ crChar := by
  by_cases hne : text = []
  · rw [hne] at hres
    simp [chunk_text] at hres
    subst hres
    simp
  · by_cases hpos : 0 < chunk_size - overlap
    · rw [chunk_text_pos_step text chunk_size overlap hne hpos] at hres
      obtain rfl : _ = chunks := Option.some.inj hres
      intro c hc ch hch
      have hc' := List.mem_of_mem_filter hc
      obtain ⟨j, _, rfl⟩ := List.mem_map.mp hc'
      have hdrop : ch ∈ stripForStorage text :=
        List.drop_subset _ _ (List.take_subset _ _ hch)
      unfold stripForStorage at hdrop
      have h2 := List.mem_filter.mp hdrop
      have h1 := List.mem_filter.mp h2.1
      constructor
      · simpa using h1.2
      · simpa using h2.2
    · simp only [chunk_text, if_neg hne] at hres
      by_cases hz : chunk_size - overlap = 0
      · rw [if_pos hz] at hres
        exact absurd hres (by simp)
      · rw [if_neg hz, if_pos (by omega)] at hres
        obtain rfl : _ = chunks := Option.some.inj hres
        simp

/-- C7 amended, witness: `chunk_text "a\rb"` with size 2 yields the single
clean chunk `"ab"`, whose first character is neither forbidden byte. -/
theorem chunk_text_chunks_clean_witness :
    chunk_text ['a', crChar, 'b'] 2 0 = some [['a', 'b']] ∧
      ('a' ≠ nullChar ∧ 'a' ≠ crChar) :=
  ⟨by decide, chunk_text_chunks_clean ['a', crChar, 'b'] 2 0 [['a', 'b']]
    (by decide) ['a', 'b'] (by decide) 'a' (by decide)⟩

/-! ## Claim C8 -/

/-- C8, counterexample: the claim "a configuration with overlap >= size is
rejected or clamped at configuration time, so `chunk_text` never fails at
call time" is false: no validation exists, the configured values flow
straight into `chunk_text`, and with overlap = size on a non-empty text the
Python `range(0, n, 0)` raises `ValueError` (result `none`); the second
conjunct shows the raising call being reached from
`process_file_for_rag_async` with such a configuration, whose outer
`except` turns it into a `False` return. -/
theorem chunk_overlap_never_fails_cex :
    (¬ ∀ (text : Str) (config : Config),
        chunk_text text (cfgChunkSize config) (cfgChunkOverlap config) ≠ none) ∧
    (process_file_for_rag happySchedule (fun _ => []) (fun _ => []) (fun _ => [])
      [] ['a'] "f1".toList "u1".toList "t1".toList none cfgOverlapEqSize
      emptyDatabase).2 = some false := by
  constructor
  · intro h
    exact h ['a'] cfgOverlapEqSize (by decide)
  · decide

/-- C8, amended: the repository has no configuration-time rejection or
clamping; a size/overlap pair with overlap >= size reaches `chunk_text`
unchecked, and on any non-empty text the call raises `ValueError` when
overlap = size (the negative-step case overlap > size silently returns an
empty chunk list instead). -/
theorem chunk_text_overlap_ge_size (text : Str) (chunk_size overlap : Int)
    (hne : text ≠ []) (hov : chunk_size ≤ overlap) :
    chunk_text text chunk_size overlap =
      if chunk_size = overlap then none else some [] := by
  simp only [chunk_text, if_neg hne]
  by_cases heq : chunk_size = overlap
  · rw [if_pos (by omega), if_pos heq]
  · rw [if_neg (by omega), if_pos (by omega), if_neg heq]

/-- C8 amended, witness at size = overlap = 5 on `"a"`. -/
theorem chunk_text_overlap_ge_size_witness :
    chunk_text ['a'] 5 5 = if (5 : Int) = 5 then none else some [] :=
  chunk_text_overlap_ge_size ['a'] 5 5 (by decide) (by decide)

/-! ## Helper lemmas on the storage model -/

theorem lastState_append : ∀ (t1 : List Database) (db : Database) (t2 : List Database),
    lastState db (t1 ++ t2) = lastState (lastState db t1) t2 := by
  intro t1
  induction t1 with
  | nil => intro db t2; rfl
  | cons a t1 ih =>
    intro db t2
    simp only [List.cons_append, lastState, List.getLastD_cons]
    exact ih a t2

theorem lastState_concat (db x : Database) (tr : List Database) :
    lastState db (tr ++ [x]) = x := by
  rw [lastState_append]; rfl

theorem documents_upsertMetadataStmt (file_id title url : Str)
    (schema : Option (List Str)) (db : Database) :
    (upsertMetadataStmt file_id title url schema db).documents = db.documents := by
  unfold upsertMetadataStmt
  split <;> rfl

theorem documents_rowsLast (failAt : Nat) (file_id : Str)
    (rows : List (List (Str × Str))) (db : Database) :
    (lastState db (rowsTrace failAt file_id rows db)).documents = db.documents := by
  unfold rowsTrace
  split
  · rfl
  · split <;> rfl

theorem metadata_rowsLast (failAt : Nat) (file_id : Str)
    (rows : List (List (Str × Str))) (db : Database) :
    (lastState db (rowsTrace failAt file_id rows db)).document_metadata =
      db.document_metadata := by
  unfold rowsTrace
  split
  · rfl
  · split <;> rfl

theorem chunkRecords_file_id (chunks : List Str) (embeddings : List (List Int))
    (file_id file_url file_title : Str) (mime_type : Option Str)
    (file_contents : Option Bytes) :
    ∀ d ∈ chunkRecords chunks embeddings file_id file_url file_title mime_type file_contents,
      d.metadata.file_id = file_id := by
  intro d hd
  obtain ⟨p, _, rfl⟩ := List.mem_map.mp hd
  rfl

theorem filter_ne_filter_eq_nil {α : Type} (f : α → Str) (v : Str) (l : List α) :
    (l.filter (fun x => f x ≠ v)).filter (fun x => f x = v) = [] := by
  induction l with
  | nil => rfl
  | cons a l ih => by_cases h : f a = v <;> simp [List.filter, h, ih]

theorem any_eq_on_filter_ne {α : Type} (f : α → Str) (v : Str) (l : List α) :
    (l.filter (fun x => f x ≠ v)).any (fun x => f x = v) = false := by
  induction l with
  | nil => rfl
  | cons a l ih => by_cases h : f a = v <;> simp [List.filter, h, ih]

theorem documents_deleteTrace_zero (fid : Str) (db : Database) :
    (lastState db (deleteTrace 0 fid db)).documents =
      db.documents.filter (fun d => d.metadata.file_id ≠ fid) := rfl

theorem rows_deleteTrace_zero (fid : Str) (db : Database) :
    (lastState db (deleteTrace 0 fid db)).document_rows =
      db.document_rows.filter (fun r => r.dataset_id ≠ fid) := rfl

theorem metadata_deleteTrace_zero (fid : Str) (db : Database) :
    (lastState db (deleteTrace 0 fid db)).document_metadata =
      db.document_metadata.filter (fun m => m.id ≠ fid) := rfl

/-- Final `documents` table of one fully successful
`process_file_for_rag_async` call: the old records of the file id are
gone and the freshly built chunk records are appended. -/
theorem process_happy_docs
    (ce : List Str → List (List Int)) (es : Bytes → List Str)
    (er : Bytes → List (List (Str × Str))) (fc : Bytes) (text : Str)
    (fid url title : Str) (mime : Option Str) (cfg : Config) (db : Database)
    (c : Str) (cs : List Str)
    (hchunk : chunk_text text (cfgChunkSize cfg) (cfgChunkOverlap cfg) = some (c :: cs))
    (hlen : (ce (c :: cs)).length = (c :: cs).length) :
    ((process_file_for_rag happySchedule ce es er fc text fid url title mime cfg
        db).1.getLastD db).documents =
      db.documents.filter (fun d => d.metadata.file_id ≠ fid) ++
        chunkRecords (c :: cs) (ce (c :: cs)) fid url title mime (imageContents mime fc) := by
  simp only [process_file_for_rag, happySchedule]
  rw [hchunk]
  simp only [Bool.false_eq_true, if_false, false_or, hlen, ne_eq, not_true_eq_false,
    List.getLastD_cons]
  rw [List.getLastD_concat]
  simp only [insertChunksStmt]
  congr 1
  rw [lastState_append, lastState_append]
  have hmid : ∀ v : Database, lastState v
      [upsertMetadataStmt fid title url
        (schemaJsonOf (if mimeIsTabular mime cfg = true then some (es fc) else none)) v] =
      upsertMetadataStmt fid title url
        (schemaJsonOf (if mimeIsTabular mime cfg = true then some (es fc) else none)) v := by
    intro v; rfl
  rw [hmid]
  have hifpart : ∀ v : Database, (lastState v (if mimeIsTabular mime cfg = true then
      (if ¬ er fc = [] then rowsTrace 0 fid (er fc) v else []) else [])).documents =
      v.documents := by
    intro v
    split
    · split
      · exact documents_rowsLast 0 fid (er fc) v
      · rfl
    · rfl
  rw [hifpart, documents_upsertMetadataStmt, documents_deleteTrace_zero]

/-! ## Claim C1 -/

/-- C1: replacement correctness of the Storage Gateway. Running
`process_file_for_rag` for a file id and then running it again for the
same file id with new content, both runs succeeding (`True` returned, the
embedder honouring its same-length contract), leaves exactly the new
content's chunk records stored for that file id: the `documents` rows
whose `metadata.file_id` equals the file id are precisely the records
built from the new chunks, none of the old content's. -/
theorem replace_twice_leaves_exactly_new_chunks
    (ce : List Str → List (List Int)) (es : Bytes → List Str)
    (er : Bytes → List (List (Str × Str)))
    (fc1 fc2 : Bytes) (text1 text2 : Str) (fid url1 title1 url2 title2 : Str)
    (mime1 mime2 : Option Str) (cfg : Config) (db : Database)
    (c2 : Str) (cs2 : List Str)
    (hchunk2 : chunk_text text2 (cfgChunkSize cfg) (cfgChunkOverlap cfg) = some (c2 :: cs2))
    (hlen2 : (ce (c2 :: cs2)).length = (c2 :: cs2).length)
    (h1 : (process_file_for_rag happySchedule ce es er fc1 text1 fid url1 title1 mime1
      cfg db).2 = some true)
    (h2 : (process_file_for_rag happySchedule ce es er fc2 text2 fid url2 title2 mime2 cfg
      ((process_file_for_rag happySchedule ce es er fc1 text1 fid url1 title1 mime1
        cfg db).1.getLastD db)).2 = some true) :
    ((process_file_for_rag happySchedule ce es er fc2 text2 fid url2 title2 mime2 cfg
      ((process_file_for_rag happySchedule ce es er fc1 text1 fid url1 title1 mime1
        cfg db).1.getLastD db)).1.getLastD
      ((process_file_for_rag happySchedule ce es er fc1 text1 fid url1 title1 mime1
        cfg db).1.getLastD db)).documents.filter (fun d => d.metadata.file_id = fid) =
      chunkRecords (c2 :: cs2) (ce (c2 :: cs2)) fid url2 title2 mime2
        (imageContents mime2 fc2) := by
  rw [process_happy_docs ce es er fc2 text2 fid url2 title2 mime2 cfg _ c2 cs2 hchunk2 hlen2]
  rw [List.filter_append,
    filter_ne_filter_eq_nil (fun d : DocumentRecord => d.metadata.file_id) fid]
  rw [List.nil_append, List.filter_eq_self]
  intro a ha
  simpa using chunkRecords_file_id _ _ _ _ _ _ _ a ha

/-- C1, witness: a database holding old chunks for `"f1"` is processed with
`"old"` and then `"new"`; both runs return `True` and the stored chunks for
`"f1"` are exactly the single record built from `"new"`. -/
theorem replace_twice_leaves_exactly_new_chunks_witness :
    (process_file_for_rag happySchedule exCe exEs exEr [] "old".toList "f1".toList
      "u1".toList "t1".toList none exCfg exDb).2 = some true ∧
    ((process_file_for_rag happySchedule exCe exEs exEr [] "new".toList "f1".toList
      "u2".toList "t2".toList none exCfg
      ((process_file_for_rag happySchedule exCe exEs exEr [] "old".toList "f1".toList
        "u1".toList "t1".toList none exCfg exDb).1.getLastD exDb)).1.getLastD
      ((process_file_for_rag happySchedule exCe exEs exEr [] "old".toList "f1".toList
        "u1".toList "t1".toList none exCfg exDb).1.getLastD exDb)).documents.filter
      (fun d => d.metadata.file_id = "f1".toList) =
      chunkRecords ["new".toList] (exCe ["new".toList]) "f1".toList "u2".toList
        "t2".toList none (imageContents none []) :=
  ⟨by decide, replace_twice_leaves_exactly_new_chunks exCe exEs exEr [] [] "old".toList
    "new".toList "f1".toList "u1".toList "t1".toList "u2".toList "t2".toList none none
    exCfg exDb "new".toList [] (by decide) (by decide) (by decide) (by decide)⟩

/-! ## Claim C2 -/

/-- C2, counterexample: the claim "on the postgres backend all six steps of
a replace run inside one transaction, so a failure leaves the stored
records for the file id unchanged" is false: `db_handler.py` opens no
transaction block, each statement commits on its own. With a schedule in
which the metadata upsert and the embedding call raise, the three DELETEs
have already committed: a database that held a chunk and a metadata record
for `"f1"` ends the failed run with no records for `"f1"` at all. -/
theorem replace_transactional_cex :
    ¬ (∀ (sch : Schedule), hasFailure sch = true →
        ∀ (ce : List Str → List (List Int)) (es : Bytes → List Str)
          (er : Bytes → List (List (Str × Str))) (fc : Bytes) (text : Str)
          (fid url title : Str) (mime : Option Str) (cfg : Config) (db : Database),
          recordsFor fid ((process_file_for_rag sch ce es er fc text fid url title mime
            cfg db).1.getLastD db) = recordsFor fid db) := by
  intro h
  have := h ⟨0, true, 0, true, false⟩ (by decide) exCe exEs exEr [] "new".toList
    "f1".toList "u1".toList "t1".toList none exCfg exDb
  exact absurd this (by decide)

/-- C2, amended: the postgres path of `process_file_for_rag_async` issues
each step as a separate auto-committed statement with no wrapping
transaction, so a failure does not roll back earlier steps. When every
step after the deletes raises (metadata upsert and embedding failing, on a
non-tabular file), the run leaves no chunk, row or metadata record at all
for the file id: the old records were deleted and nothing replaced them.
Consistency is restored only by a later fully successful run. -/
theorem replace_failure_leaves_deletes_committed
    (ce : List Str → List (List Int)) (es : Bytes → List Str)
    (er : Bytes → List (List (Str × Str))) (fc : Bytes) (text : Str)
    (fid url title : Str) (cfg : Config) (db : Database) :
    recordsFor fid ((process_file_for_rag ⟨0, true, 0, true, false⟩ ce es er fc text fid
      url title none cfg db).1.getLastD db) = ([], [], []) := by
  have hfinal : (process_file_for_rag ⟨0, true, 0, true, false⟩ ce es er fc text fid
      url title none cfg db).1.getLastD db = lastState db (deleteTrace 0 fid db) := by
    simp only [process_file_for_rag, mimeIsTabular]
    cases hc : chunk_text text (cfgChunkSize cfg) (cfgChunkOverlap cfg) with
    | none => rfl
    | some l =>
      cases l with
      | nil => rfl
      | cons c cs => rfl
  rw [hfinal]
  simp only [recordsFor, documents_deleteTrace_zero, rows_deleteTrace_zero,
    metadata_deleteTrace_zero, filter_ne_filter_eq_nil]

theorem metadata_insertChunksStmt (chunks : List Str) (embeddings : List (List Int))
    (file_id file_url file_title : Str) (mime_type : Option Str)
    (file_contents : Option Bytes) (db : Database) :
    (insertChunksStmt chunks embeddings file_id file_url file_title mime_type
      file_contents db).document_metadata = db.document_metadata := rfl

theorem metadata_upsert_after_delete (fid title url : Str) (s : Option (List Str))
    (db : Database) :
    (upsertMetadataStmt fid title url s
        (lastState db (deleteTrace 0 fid db))).document_metadata =
      db.document_metadata.filter (fun m => m.id ≠ fid) ++ [⟨fid, title, url, s⟩] := by
  unfold upsertMetadataStmt
  rw [if_neg]
  · simp [metadata_deleteTrace_zero]
  · rw [metadata_deleteTrace_zero, any_eq_on_filter_ne (fun m : MetadataRecord => m.id) fid]
    simp

theorem happy_none_final_metadata
    (ce : List Str → List (List Int)) (es : Bytes → List Str)
    (er : Bytes → List (List (Str × Str))) (fc : Bytes) (text : Str)
    (fid url title : Str) (cfg : Config) (db : Database) :
    ((process_file_for_rag happySchedule ce es er fc text fid url title none cfg
        db).1.getLastD db).document_metadata =
      db.document_metadata.filter (fun m => m.id ≠ fid) ++ [⟨fid, title, url, none⟩] := by
  simp only [process_file_for_rag, happySchedule, mimeIsTabular, Bool.false_eq_true,
    if_false, schemaJsonOf, List.append_nil]
  cases hc : chunk_text text (cfgChunkSize cfg) (cfgChunkOverlap cfg) with
  | none =>
    simp only [List.getLastD_cons, List.getLastD_concat]
    exact metadata_upsert_after_delete fid title url none db
  | some l =>
    cases l with
    | nil =>
      simp only [List.getLastD_cons, List.getLastD_concat]
      exact metadata_upsert_after_delete fid title url none db
    | cons c cs =>
      simp only [false_or]
      split
      · simp only [List.getLastD_cons, List.getLastD_concat]
        exact metadata_upsert_after_delete fid title url none db
      · simp only [List.getLastD_cons]
        rw [List.getLastD_concat, metadata_insertChunksStmt, lastState_concat]
        exact metadata_upsert_after_delete fid title url none db

theorem deleteTrace_zero_eq (fid : Str) (db : Database) :
    deleteTrace 0 fid db =
      [deleteDocumentsStmt fid db, deleteRowsStmt fid (deleteDocumentsStmt fid db),
       deleteMetadataStmt fid (deleteRowsStmt fid (deleteDocumentsStmt fid db))] := rfl

/-! ## Claim C4 -/

/-- C4, counterexample: the claim "during a replace of a file id that
already has a metadata record there is no intermediate point at which that
record is absent" is false: `process_file_for_rag_async` first calls
`delete_document_by_file_id_async`, whose third DELETE removes the
metadata record, and only afterwards re-creates it with the upsert — so a
committed intermediate state with no metadata record for the file id is
visible. Shown at a concrete database holding a metadata record for
`"f1"`: the initial state has the record, some visible state of the run
has none. -/
theorem replace_metadata_always_present_cex :
    ¬ (∀ (ce : List Str → List (List Int)) (es : Bytes → List Str)
        (er : Bytes → List (List (Str × Str))) (fc : Bytes) (text : Str)
        (fid url title : Str) (mime : Option Str) (cfg : Config) (db : Database),
        db.document_metadata.any (fun m => m.id = fid) = true →
        ∀ s ∈ (process_file_for_rag happySchedule ce es er fc text fid url title mime
          cfg db).1, s.document_metadata.any (fun m => m.id = fid) = true) := by
  intro h
  have := h exCe exEs exEr [] "new".toList "f1".toList "u1".toList "t1".toList none
    exCfg exDb (by decide)
  exact absurd this (by decide)

/-- C4, amended: during a replace under the postgres backend the metadata
record for an existing file id is transiently absent: the visible state
right after the three delete statements (position 3 of the state trace)
holds no metadata record for the file id, and the record is re-created
only by the subsequent metadata write — which is itself a single
`INSERT ... ON CONFLICT` upsert, so the run ends with exactly one fresh
metadata record for the file id. -/
theorem replace_metadata_missing_window
    (ce : List Str → List (List Int)) (es : Bytes → List Str)
    (er : Bytes → List (List (Str × Str))) (fc : Bytes) (text : Str)
    (fid url title : Str) (cfg : Config) (db : Database) :
    (((process_file_for_rag happySchedule ce es er fc text fid url title none cfg
        db).1.getD 3 emptyDatabase).document_metadata.filter (fun m => m.id = fid) = []) ∧
    (((process_file_for_rag happySchedule ce es er fc text fid url title none cfg
        db).1.getLastD db).document_metadata.filter (fun m => m.id = fid) =
      [⟨fid, title, url, none⟩]) := by
  constructor
  · have hmid : ((process_file_for_rag happySchedule ce es er fc text fid url title none
        cfg db).1.getD 3 emptyDatabase) =
        deleteMetadataStmt fid (deleteRowsStmt fid (deleteDocumentsStmt fid db)) := by
      simp only [process_file_for_rag, happySchedule, mimeIsTabular, Bool.false_eq_true,
        if_false, schemaJsonOf, List.append_nil, deleteTrace_zero_eq]
      cases hc : chunk_text text (cfgChunkSize cfg) (cfgChunkOverlap cfg) with
      | none => rfl
      | some l =>
        cases l with
        | nil => rfl
        | cons c cs =>
          simp only [false_or]
          split <;> rfl
    rw [hmid]
    exact filter_ne_filter_eq_nil (fun m : MetadataRecord => m.id) fid _
  · rw [happy_none_final_metadata ce es er fc text fid url title cfg db]
    rw [List.filter_append,
      filter_ne_filter_eq_nil (fun m : MetadataRecord => m.id) fid]
    simp

theorem rows_upsertMetadataStmt (file_id title url : Str)
    (schema : Option (List Str)) (db : Database) :
    (upsertMetadataStmt file_id title url schema db).document_rows =
      db.document_rows := by
  unfold upsertMetadataStmt
  split <;> rfl

/-! ## Claim C9 -/

/-- C9: when chunking yields no chunks, `process_file_for_rag_async` has
already deleted every previously stored chunk, row and metadata record for
the file id and upserted a fresh metadata record; it then returns early
with `None` (not the `True` of the success path), leaving exactly one
metadata record and zero chunks and rows for the file id (shown for a
non-tabular file). -/
theorem replace_empty_chunks_deletes_and_writes_metadata
    (ce : List Str → List (List Int)) (es : Bytes → List Str)
    (er : Bytes → List (List (Str × Str))) (fc : Bytes) (text : Str)
    (fid url title : Str) (cfg : Config) (db : Database)
    (hchunk : chunk_text text (cfgChunkSize cfg) (cfgChunkOverlap cfg) = some []) :
    (process_file_for_rag happySchedule ce es er fc text fid url title none cfg
      db).2 = none ∧
    recordsFor fid ((process_file_for_rag happySchedule ce es er fc text fid url title
      none cfg db).1.getLastD db) = ([], [], [⟨fid, title, url, none⟩]) := by
  have hfinal : (process_file_for_rag happySchedule ce es er fc text fid url title none
      cfg db).1.getLastD db =
      upsertMetadataStmt fid title url none (lastState db (deleteTrace 0 fid db)) := by
    simp only [process_file_for_rag, happySchedule, mimeIsTabular, Bool.false_eq_true,
      if_false, schemaJsonOf, List.append_nil]
    rw [hchunk]
    simp only [List.getLastD_cons, List.getLastD_concat]
  constructor
  · simp only [process_file_for_rag, happySchedule, mimeIsTabular, Bool.false_eq_true,
      if_false, schemaJsonOf, List.append_nil]
    rw [hchunk]
  · rw [hfinal]
    simp only [recordsFor, Prod.mk.injEq]
    refine ⟨?_, ?_, ?_⟩
    · rw [documents_upsertMetadataStmt, documents_deleteTrace_zero]
      exact filter_ne_filter_eq_nil (fun d : DocumentRecord => d.metadata.file_id) fid _
    · rw [rows_upsertMetadataStmt, rows_deleteTrace_zero]
      exact filter_ne_filter_eq_nil (fun r : RowRecord => r.dataset_id) fid _
    · rw [metadata_upsert_after_delete, List.filter_append,
        filter_ne_filter_eq_nil (fun m : MetadataRecord => m.id) fid]
      simp

/-- C9, witness: reprocessing the already-indexed `"f1"` with empty text
returns `None` and leaves one fresh metadata record, no chunks, no rows. -/
theorem replace_empty_chunks_witness :
    chunk_text [] (cfgChunkSize exCfg) (cfgChunkOverlap exCfg) = some [] ∧
    ((process_file_for_rag happySchedule exCe exEs exEr [] [] "f1".toList "u1".toList
      "t1".toList none exCfg exDb).2 = none ∧
    recordsFor "f1".toList ((process_file_for_rag happySchedule exCe exEs exEr [] []
      "f1".toList "u1".toList "t1".toList none exCfg exDb).1.getLastD exDb) =
      ([], [], [⟨"f1".toList, "t1".toList, "u1".toList, none⟩])) :=
  ⟨by decide, replace_empty_chunks_deletes_and_writes_metadata exCe exEs exEr [] []
    "f1".toList "u1".toList "t1".toList exCfg exDb (by decide)⟩

/-! ## Claim C10 -/

/-- C10: the insert helpers of `db_handler.py` swallow their own
exceptions, so when the chunk insert raises after the deletes have already
committed, `process_file_for_rag_async` still returns `True` while the
file id ends with no chunk records at all (non-tabular file shown; the
metadata and row helpers swallow their errors the same way, as the
all-inserts-failing schedule of the C2 analysis shows). -/
theorem replace_reports_success_despite_failed_insert
    (ce : List Str → List (List Int)) (es : Bytes → List Str)
    (er : Bytes → List (List (Str × Str))) (fc : Bytes) (text : Str)
    (fid url title : Str) (cfg : Config) (db : Database) (c : Str) (cs : List Str)
    (hchunk : chunk_text text (cfgChunkSize cfg) (cfgChunkOverlap cfg) = some (c :: cs)) :
    (process_file_for_rag ⟨0, false, 0, false, true⟩ ce es er fc text fid url title none
      cfg db).2 = some true ∧
    ((process_file_for_rag ⟨0, false, 0, false, true⟩ ce es er fc text fid url title none
      cfg db).1.getLastD db).documents.filter (fun d => d.metadata.file_id = fid) = [] := by
  constructor
  · simp only [process_file_for_rag, mimeIsTabular, Bool.false_eq_true, if_false,
      schemaJsonOf, List.append_nil]
    rw [hchunk]
    simp only [true_or, if_true]
  · have hfinal : (process_file_for_rag ⟨0, false, 0, false, true⟩ ce es er fc text fid
        url title none cfg db).1.getLastD db =
        upsertMetadataStmt fid title url none (lastState db (deleteTrace 0 fid db)) := by
      simp only [process_file_for_rag, mimeIsTabular, Bool.false_eq_true, if_false,
        schemaJsonOf, List.append_nil]
      rw [hchunk]
      simp only [true_or, if_true, List.getLastD_cons, List.getLastD_concat]
    rw [hfinal, documents_upsertMetadataStmt, documents_deleteTrace_zero]
    exact filter_ne_filter_eq_nil (fun d : DocumentRecord => d.metadata.file_id) fid _

/-- C10, witness: processing `"hi"` for the already-indexed `"f1"` with the
chunk insert failing still returns `True`, with zero chunks stored. -/
theorem replace_reports_success_despite_failed_insert_witness :
    chunk_text "hi".toList (cfgChunkSize exCfg) (cfgChunkOverlap exCfg) =
      some ["hi".toList] ∧
    ((process_file_for_rag ⟨0, false, 0, false, true⟩ exCe exEs exEr [] "hi".toList
      "f1".toList "u1".toList "t1".toList none exCfg exDb).2 = some true ∧
    ((process_file_for_rag ⟨0, false, 0, false, true⟩ exCe exEs exEr [] "hi".toList
      "f1".toList "u1".toList "t1".toList none exCfg exDb).1.getLastD
      exDb).documents.filter (fun d => d.metadata.file_id = "f1".toList) = []) :=
  ⟨by decide, replace_reports_success_despite_failed_insert exCe exEs exEr [] "hi".toList
    "f1".toList "u1".toList "t1".toList exCfg exDb "hi".toList [] (by decide)⟩

theorem kfLookup_kfInsert (k v : Str) : ∀ m, kfLookup k (kfInsert k v m) = some v := by
  intro m
  induction m with
  | nil => simp [kfInsert, kfLookup]
  | cons p rest ih =>
    by_cases hp : p.1 = k
    · simp [kfInsert, kfLookup, hp]
    · by_cases hr : rest.any (fun q => q.1 = k)
      · simp [kfInsert, kfLookup, hp, hr] at ih ⊢
        exact ih
      · simp [kfInsert, kfLookup, hp, hr] at ih ⊢
        exact ih

/-! ## Claim C3 -/

/-- C3, counterexample: the claim "knownFiles[fileId] is advanced only when
the file's processing succeeded" is false. `LocalFileWatcher.process_file`
sets `known_files[file_path] = modifiedTime` unconditionally after calling
`process_file_for_rag`, whose `False` return (here: the embedding call
raising) is discarded: at a concrete failing run the map goes from not
containing the file to mapping it to the new modification time, so the
file will not be retried. -/
theorem known_files_not_advanced_on_failure_cex :
    ¬ (∀ (sch : Schedule) (ce : List Str → List (List Int)) (es : Bytes → List Str)
        (er : Bytes → List (List (Str × Str))) (decode pdfExtract : Bytes → Str)
        (db : Database) (known : List (Str × Str)) (content : Bytes)
        (file_path file_name mime_type link modifiedTime : Str) (cfg : Config),
        (process_file_for_rag sch ce es er content
          (extract_text_from_file decode pdfExtract content mime_type file_name cfg)
          file_path link file_name (some mime_type) cfg db).2 ≠ some true →
        kfLookup file_path (LocalFileWatcher.process_file sch ce es er decode pdfExtract
          db known content file_path file_name mime_type link modifiedTime cfg).2 =
          kfLookup file_path known) := by
  intro h
  have := h ⟨0, false, 0, true, false⟩ exCe exEs exEr exDecode exPdf exDb []
    [] "f1".toList "n1".toList "text/plain".toList "u1".toList "m1".toList exCfgPlain
    (by decide)
  exact absurd this (by decide)

/-- C3, amended: both watchers advance `knownFiles[fileId]` to the file's
modification time whenever extraction produced non-empty text (and, for
the Drive watcher, the file is not trashed, passes the MIME allow-list and
the download raised no exception) — regardless of whether
`process_file_for_rag` succeeded: its `False` failure return is discarded,
so a file whose embedding or storage step failed is not retried on the
next cycle. Only an exception raised before or during extraction (outside
`process_file_for_rag`) leaves `knownFiles` unadvanced. -/
theorem known_files_advanced_despite_failure
    (sch : Schedule) (ce : List Str → List (List Int)) (es : Bytes → List Str)
    (er : Bytes → List (List (Str × Str))) (decode pdfExtract : Bytes → Str)
    (db : Database) (known : List (Str × Str)) (content : Bytes)
    (file_id file_name mime_type link modifiedTime : Str) (cfg : Config)
    (htext : extract_text_from_file decode pdfExtract content mime_type file_name cfg ≠ [])
    (hfail : (process_file_for_rag sch ce es er content
      (extract_text_from_file decode pdfExtract content mime_type file_name cfg)
      file_id link file_name (some mime_type) cfg db).2 = some false)
    (hmime : driveMimeAllowed mime_type cfg = true) :
    kfLookup file_id (LocalFileWatcher.process_file sch ce es er decode pdfExtract db
      known content file_id file_name mime_type link modifiedTime cfg).2 =
      some modifiedTime ∧
    kfLookup file_id (GoogleDriveWatcher.process_file sch ce es er decode pdfExtract 0
      false db known content file_id file_name mime_type link modifiedTime false cfg).2 =
      some modifiedTime := by
  constructor
  · simp only [LocalFileWatcher.process_file]
    rw [if_pos htext]
    exact kfLookup_kfInsert file_id modifiedTime known
  · simp only [GoogleDriveWatcher.process_file, Bool.false_eq_true, if_false, hmime,
      not_true_eq_false]
    rw [if_pos htext]
    exact kfLookup_kfInsert file_id modifiedTime known

/-- C3 amended, witness: a `text/plain` file whose embedding call fails
(processing returns `False`) still gets its modification time recorded in
`known_files` by both watchers. -/
theorem known_files_advanced_despite_failure_witness :
    (extract_text_from_file exDecode exPdf [] "text/plain".toList "n1".toList
      exCfgPlain ≠ []) ∧
    ((process_file_for_rag ⟨0, false, 0, true, false⟩ exCe exEs exEr []
      (extract_text_from_file exDecode exPdf [] "text/plain".toList "n1".toList exCfgPlain)
      "f1".toList "u1".toList "n1".toList (some "text/plain".toList) exCfgPlain
      exDb).2 = some false) ∧
    (kfLookup "f1".toList (LocalFileWatcher.process_file ⟨0, false, 0, true, false⟩
      exCe exEs exEr exDecode exPdf exDb [] [] "f1".toList "n1".toList
      "text/plain".toList "u1".toList "m1".toList exCfgPlain).2 = some "m1".toList ∧
    kfLookup "f1".toList (GoogleDriveWatcher.process_file ⟨0, false, 0, true, false⟩
      exCe exEs exEr exDecode exPdf 0 false exDb [] [] "f1".toList "n1".toList
      "text/plain".toList "u1".toList "m1".toList false exCfgPlain).2 =
      some "m1".toList) :=
  ⟨by decide, by decide, known_files_advanced_despite_failure ⟨0, false, 0, true, false⟩
    exCe exEs exEr exDecode exPdf exDb [] [] "f1".toList "n1".toList
    "text/plain".toList "u1".toList "m1".toList exCfgPlain (by decide) (by decide)
    (by decide)⟩
